import Mathlib

/-
  Verification of the PerkChat realtime coordination layer.

  The definitions below are shallow embeddings of the TypeScript source:
  - the message cache (`MessageCacheManager` in useMessageCache.ts),
  - the chat store operations on the messages/profiles tables (chatStore.ts),
  - the typing-indicator operations (chatStore.ts startTyping/stopTyping and
    the documented server-side auto-expiry),
  - the call-session operations (callStore.ts and the server-side edge
    functions, the latter modelled from the design spec since their source
    is not in the repository).

  Timestamps (JS `Date.now()` / `created_at`) are modelled as `Nat`
  milliseconds; ids are `String`s.
-/

namespace PerkChat

/-- Delivery status of a message: `sent`, `delivered` or `read`. -/
inductive MessageStatus where
  | sent
  | delivered
  | read
  deriving DecidableEq, Repr

/-- Forward order of the delivery lifecycle: sent = 0, delivered = 1, read = 2. -/
def statusRank : MessageStatus → Nat
  | .sent => 0
  | .delivered => 1
  | .read => 2

/-- A row of the `messages` table (chatStore.ts `Message`), with the fields
the coordination layer reads. `created_at` is a millisecond timestamp. -/
structure Message where
  id : String
  conversation_id : String
  sender_id : String
  content : String
  status : MessageStatus
  edited : Bool
  created_at : Nat
  deriving DecidableEq, Repr

/-- Presence status of a user profile (`profiles.status`). -/
inductive UserStatus where
  | online
  | offline
  | away
  deriving DecidableEq, Repr

/- ===================================================================
   MessageCacheManager (useMessageCache.ts)
   =================================================================== -/

/-- One entry of the `MessageCache`: the per-conversation record
`{ messages, lastFetched, hasMore }`. -/
structure CacheEntry where
  messages : List Message
  lastFetched : Nat
  hasMore : Bool
  deriving DecidableEq, Repr

/-- The cache object, a map from conversation id to its entry, modelled as
an association list read through `getEntry`. -/
def MessageCache := List (String × CacheEntry)

/-- The empty cache (`private cache: MessageCache = {}`). -/
def nilCache : MessageCache := []

/-- Lookup of `this.cache[conversationId]`. -/
def getEntry (cache : MessageCache) (conversationId : String) : Option CacheEntry :=
  (cache.find? (fun p => p.1 == conversationId)).map (fun p => p.2)

/-- Assignment `this.cache[conversationId] = entry` (later bindings shadow
earlier ones; all reads go through `getEntry`). -/
def setEntry (cache : MessageCache) (conversationId : String) (entry : CacheEntry) :
    MessageCache :=
  (conversationId, entry) :: cache

/-- `CACHE_DURATION = 5 * 60 * 1000` milliseconds. -/
def CACHE_DURATION : Nat := 5 * 60 * 1000

/-- `MESSAGES_PER_PAGE = 50`. -/
def MESSAGES_PER_PAGE : Nat := 50

/-- Stable insertion of a message into a list kept in non-decreasing
`created_at` order; building block of the JS
`sort((a, b) => a.created_at - b.created_at)` result. -/
def insertByCreated (m : Message) : List Message → List Message
  | [] => [m]
  | x :: xs =>
    if x.created_at ≤ m.created_at then x :: insertByCreated m xs
    else m :: x :: xs

/-- The JS stable sort by the `created_at` comparator, as an insertion sort. -/
def sortByCreated (l : List Message) : List Message :=
  l.foldr insertByCreated []

/-- The list is in non-decreasing `created_at` order. -/
def SortedByCreated (l : List Message) : Prop :=
  l.Pairwise (fun a b => a.created_at ≤ b.created_at)

/-- `getCachedMessages(conversationId)`: returns `[]` for a missing entry,
`[]` when `now - lastFetched > CACHE_DURATION` (cache expired), and the
stored messages otherwise. -/
def getCachedMessages (cache : MessageCache) (conversationId : String) (now : Nat) :
    List Message :=
  match getEntry cache conversationId with
  | none => []
  | some cached =>
    if now - cached.lastFetched > CACHE_DURATION then []
    else cached.messages

/-- `setCachedMessages(conversationId, messages, hasMore = true)`: stores the
messages sorted by `created_at` and stamps `lastFetched = Date.now()`. -/
def setCachedMessages (cache : MessageCache) (conversationId : String)
    (messages : List Message) (now : Nat) (hasMore : Bool) : MessageCache :=
  setEntry cache conversationId
    { messages := sortByCreated messages, lastFetched := now, hasMore := hasMore }

/-- `addMessage(conversationId, message)`: creates a fresh singleton entry if
none exists; returns the cache unchanged when the message id is already
present; otherwise appends and re-sorts, stamping `lastFetched`. -/
def addMessage (cache : MessageCache) (conversationId : String) (message : Message)
    (now : Nat) : MessageCache :=
  match getEntry cache conversationId with
  | none =>
    setEntry cache conversationId
      { messages := [message], lastFetched := now, hasMore := true }
  | some existing =>
    if existing.messages.any (fun m => m.id == message.id) then cache
    else
      setEntry cache conversationId
        { messages := sortByCreated (existing.messages ++ [message]),
          lastFetched := now, hasMore := existing.hasMore }

/-- `prependMessages(conversationId, messages)`: creates a sorted entry if none
exists; otherwise drops messages whose ids are already cached, merges and
re-sorts, keeping the existing `lastFetched`. -/
def prependMessages (cache : MessageCache) (conversationId : String)
    (messages : List Message) (now : Nat) : MessageCache :=
  match getEntry cache conversationId with
  | none =>
    setEntry cache conversationId
      { messages := sortByCreated messages, lastFetched := now,
        hasMore := messages.length == MESSAGES_PER_PAGE }
  | some existing =>
    let existingIds := existing.messages.map (fun m => m.id)
    let newMessages := messages.filter (fun m => !(existingIds.contains m.id))
    setEntry cache conversationId
      { messages := sortByCreated (newMessages ++ existing.messages),
        lastFetched := existing.lastFetched,
        hasMore := messages.length == MESSAGES_PER_PAGE }

/-- A message-cache operation, as in the claim: `setCachedMessages`,
`addMessage` or `prependMessages`. -/
inductive CacheOp where
  | set (conversationId : String) (messages : List Message) (hasMore : Bool) (now : Nat)
  | add (conversationId : String) (message : Message) (now : Nat)
  | prepend (conversationId : String) (messages : List Message) (now : Nat)

/-- Apply one cache operation. -/
def applyCacheOp (cache : MessageCache) : CacheOp → MessageCache
  | .set conversationId messages hasMore now =>
      setCachedMessages cache conversationId messages now hasMore
  | .add conversationId message now => addMessage cache conversationId message now
  | .prepend conversationId messages now => prependMessages cache conversationId messages now

/-- Apply a sequence of cache operations in order. -/
def applyCacheOps (cache : MessageCache) (ops : List CacheOp) : MessageCache :=
  ops.foldl applyCacheOp cache

/- Sortedness lemmas for the cache. -/

theorem mem_insertByCreated {y m : Message} :
    ∀ {l : List Message}, y ∈ insertByCreated m l → y = m ∨ y ∈ l := by
  intro l
  induction l with
  | nil =>
    intro h
    simp [insertByCreated] at h
    exact Or.inl h
  | cons x xs ih =>
    intro h
    by_cases hx : x.created_at ≤ m.created_at
    · simp [insertByCreated, hx] at h
      rcases h with h | h
      · exact Or.inr (by simp [h])
      · rcases ih h with h' | h'
        · exact Or.inl h'
        · exact Or.inr (by simp [h'])
    · simp [insertByCreated, hx] at h
      rcases h with h | h | h
      · exact Or.inl h
      · exact Or.inr (by simp [h])
      · exact Or.inr (by simp [h])

theorem sortedByCreated_insert {m : Message} :
    ∀ {l : List Message}, SortedByCreated l → SortedByCreated (insertByCreated m l) := by
  intro l
  induction l with
  | nil =>
    intro _
    simp [insertByCreated, SortedByCreated]
  | cons x xs ih =>
    intro h
    rw [SortedByCreated, List.pairwise_cons] at h
    obtain ⟨hx, hxs⟩ := h
    by_cases hle : x.created_at ≤ m.created_at
    · rw [SortedByCreated]
      simp only [insertByCreated, if_pos hle, List.pairwise_cons]
      refine ⟨?_, ih hxs⟩
      intro y hy
      rcases mem_insertByCreated hy with rfl | hy'
      · exact hle
      · exact hx y hy'
    · rw [SortedByCreated]
      simp only [insertByCreated, if_neg hle, List.pairwise_cons]
      have hmx : m.created_at ≤ x.created_at := Nat.le_of_lt (Nat.lt_of_not_le hle)
      refine ⟨?_, ?_⟩
      · intro y hy
        rcases List.mem_cons.mp hy with rfl | hy'
        · exact hmx
        · exact Nat.le_trans hmx (hx y hy')
      · exact ⟨hx, hxs⟩

theorem sortedByCreated_sort (l : List Message) : SortedByCreated (sortByCreated l) := by
  induction l with
  | nil => simp [sortByCreated, SortedByCreated]
  | cons m xs ih => exact sortedByCreated_insert ih

/-- Every entry of the cache holds a sorted message list. -/
def CacheSorted (cache : MessageCache) : Prop :=
  ∀ conversationId entry, getEntry cache conversationId = some entry →
    SortedByCreated entry.messages

theorem getEntry_setEntry (cache : MessageCache) (k k' : String) (e : CacheEntry) :
    getEntry (setEntry cache k e) k' = if k = k' then some e else getEntry cache k' := by
  by_cases h : k = k'
  · simp [getEntry, setEntry, List.find?, h]
  · have : (k == k') = false := by
      simp [h]
    simp [getEntry, setEntry, List.find?, this, h]

theorem cacheSorted_nil : CacheSorted nilCache := by
  intro cid e h
  simp [getEntry, nilCache, List.find?] at h

theorem cacheSorted_setEntry {cache : MessageCache} {k : String} {e : CacheEntry}
    (hc : CacheSorted cache) (he : SortedByCreated e.messages) :
    CacheSorted (setEntry cache k e) := by
  intro cid e' h
  rw [getEntry_setEntry] at h
  by_cases hk : k = cid
  · rw [if_pos hk] at h
    cases h
    exact he
  · rw [if_neg hk] at h
    exact hc cid e' h

theorem cacheSorted_applyCacheOp {cache : MessageCache} (op : CacheOp)
    (hc : CacheSorted cache) : CacheSorted (applyCacheOp cache op) := by
  cases op with
  | set cid msgs hasMore now =>
    exact cacheSorted_setEntry hc (sortedByCreated_sort msgs)
  | add cid m now =>
    simp only [applyCacheOp, addMessage]
    cases hentry : getEntry cache cid with
    | none =>
      exact cacheSorted_setEntry hc (by simp [SortedByCreated])
    | some existing =>
      by_cases hdup : existing.messages.any (fun m' => m'.id == m.id)
      · simpa [hdup] using hc
      · simp only [hdup, Bool.false_eq_true, if_false]
        exact cacheSorted_setEntry hc (sortedByCreated_sort _)
  | prepend cid msgs now =>
    simp only [applyCacheOp, prependMessages]
    cases hentry : getEntry cache cid with
    | none => exact cacheSorted_setEntry hc (sortedByCreated_sort msgs)
    | some existing => exact cacheSorted_setEntry hc (sortedByCreated_sort _)

theorem cacheSorted_applyCacheOps (ops : List CacheOp) :
    ∀ cache : MessageCache, CacheSorted cache → CacheSorted (applyCacheOps cache ops) := by
  induction ops with
  | nil => intro cache hc; exact hc
  | cons op rest ih =>
    intro cache hc
    exact ih (applyCacheOp cache op) (cacheSorted_applyCacheOp op hc)

/-- C7: after any sequence of cache operations (setCachedMessages, addMessage,
prependMessages) starting from the empty cache, the observer-visible message
list of every conversation is sorted in non-decreasing `created_at` order. -/
theorem cache_messages_always_sorted (ops : List CacheOp) (conversationId : String)
    (now : Nat) :
    SortedByCreated (getCachedMessages (applyCacheOps nilCache ops) conversationId now) := by
  have hc : CacheSorted (applyCacheOps nilCache ops) :=
    cacheSorted_applyCacheOps ops nilCache cacheSorted_nil
  unfold getCachedMessages
  cases hentry : getEntry (applyCacheOps nilCache ops) conversationId with
  | none => simp [SortedByCreated]
  | some cached =>
    by_cases hexp : now - cached.lastFetched > CACHE_DURATION
    · simp [hexp, SortedByCreated]
    · simpa [hexp] using hc conversationId cached hentry

/-- C8: adding a message whose id is already present in the conversation's
cache leaves the cache unchanged, so at-least-once redelivery of the same
message event never duplicates a message. -/
theorem addMessage_duplicate_id_noop (cache : MessageCache) (conversationId : String)
    (message : Message) (now : Nat) (entry : CacheEntry)
    (hentry : getEntry cache conversationId = some entry)
    (hdup : ∃ m ∈ entry.messages, m.id = message.id) :
    addMessage cache conversationId message now = cache := by
  unfold addMessage
  rw [hentry]
  have hany : entry.messages.any (fun m => m.id == message.id) = true := by
    obtain ⟨m, hm, hid⟩ := hdup
    exact List.any_eq_true.mpr ⟨m, hm, by simp [hid]⟩
  simp [hany]

/-- A concrete cached message used by the cache witnesses. -/
def demoCachedMsg : Message :=
  { id := "m1", conversation_id := "c1", sender_id := "A", content := "hi",
    status := MessageStatus.sent, edited := false, created_at := 100 }

/-- A concrete cache entry used by the cache witnesses. -/
def demoEntry : CacheEntry :=
  { messages := [demoCachedMsg], lastFetched := 50, hasMore := true }

/-- A concrete one-conversation cache used by the cache witnesses. -/
def demoCache : MessageCache := setEntry nilCache "c1" demoEntry

/-- Witness for C8: a concrete duplicate redelivery is a no-op. -/
theorem addMessage_duplicate_id_noop_witness :
    addMessage demoCache "c1"
      { id := "m1", conversation_id := "c1", sender_id := "A", content := "hi again",
        status := MessageStatus.delivered, edited := false, created_at := 200 }
      500
    = demoCache :=
  addMessage_duplicate_id_noop demoCache "c1" _ 500 demoEntry rfl
    ⟨demoCachedMsg, by simp [demoEntry], rfl⟩

/-- C10: with a cache entry present, `getCachedMessages` returns the empty
list when the entry was last fetched more than 5 minutes (300000 ms) ago,
although the messages are still stored, and the cached messages otherwise. -/
theorem getCachedMessages_expiry_behavior (cache : MessageCache)
    (conversationId : String) (now : Nat) (entry : CacheEntry)
    (hentry : getEntry cache conversationId = some entry) :
    (now - entry.lastFetched > 300000 →
      getCachedMessages cache conversationId now = [] ∧
      getEntry cache conversationId = some entry) ∧
    (now - entry.lastFetched ≤ 300000 →
      getCachedMessages cache conversationId now = entry.messages) := by
  constructor
  · intro hexp
    refine ⟨?_, hentry⟩
    unfold getCachedMessages
    rw [hentry]
    have : now - entry.lastFetched > CACHE_DURATION := by
      simpa [CACHE_DURATION] using hexp
    simp [this]
  · intro hfresh
    unfold getCachedMessages
    rw [hentry]
    have : ¬ (now - entry.lastFetched > CACHE_DURATION) := by
      simp [CACHE_DURATION]
      omega
    simp [this]

/-- Witness for C10: a concrete stale entry yields the empty list while the
messages remain stored in the entry. -/
theorem getCachedMessages_expiry_behavior_witness :
    (1000000 - demoEntry.lastFetched > 300000) ∧
    getCachedMessages demoCache "c1" 1000000 = [] :=
  ⟨by decide,
   ((getCachedMessages_expiry_behavior demoCache "c1" 1000000 demoEntry rfl).1
      (by decide)).1⟩

/- ===================================================================
   Messages table operations (chatStore.ts)
   =================================================================== -/

/-- A message is eligible for the `markAsRead` batch update: it belongs to the
conversation, was not authored by the reader, and is not already read
(the three `.eq`/`.neq` filters of the supabase update). -/
def eligibleForRead (m : Message) (conversationId userId : String) : Bool :=
  m.conversation_id == conversationId && m.sender_id != userId &&
    m.status != MessageStatus.read

/-- `markAsRead(conversationId)` from chatStore.ts: one batch update setting
`status = 'read'` on every eligible message. The second component is the
list of updated message ids — the per-row UPDATE events the realtime
channel broadcasts (an update matching no rows broadcasts nothing). -/
def markAsRead (messages : List Message) (conversationId userId : String) :
    List Message × List String :=
  (messages.map (fun m =>
      if eligibleForRead m conversationId userId then
        { m with status := MessageStatus.read }
      else m),
   (messages.filter (fun m => eligibleForRead m conversationId userId)).map
     (fun m => m.id))

/-- `sendMessage`'s insert from chatStore.ts: a new row with the given
conversation, sender and content, initial status `'sent'` (the insert sets
`status: 'sent'`; no presence check and no delivered transition occur). -/
def insertMessage (messages : List Message) (conversationId senderId content : String)
    (now : Nat) (newId : String) : List Message :=
  messages ++
    [{ id := newId, conversation_id := conversationId, sender_id := senderId,
       content := content, status := MessageStatus.sent, edited := false,
       created_at := now }]

/-- `editMessage(messageId, content)` from chatStore.ts: updates `content` and
sets `edited = true` on the matching row; the status column is untouched. -/
def editMessage (messages : List Message) (messageId newContent : String) :
    List Message :=
  messages.map (fun m =>
    if m.id == messageId then { m with content := newContent, edited := true } else m)

/-- `deleteMessage(messageId)` from chatStore.ts: deletes the matching row. -/
def deleteMessage (messages : List Message) (messageId : String) : List Message :=
  messages.filter (fun m => !(m.id == messageId))

/-- The operations of chatStore.ts that touch the messages table. -/
inductive MsgOp where
  | send (conversationId senderId content : String) (now : Nat) (newId : String)
  | markRead (conversationId readerId : String)
  | edit (messageId newContent : String)
  | delete (messageId : String)

/-- Apply one messages-table operation. -/
def applyMsgOp (messages : List Message) : MsgOp → List Message
  | .send conversationId senderId content now newId =>
      insertMessage messages conversationId senderId content now newId
  | .markRead conversationId readerId => (markAsRead messages conversationId readerId).1
  | .edit messageId newContent => editMessage messages messageId newContent
  | .delete messageId => deleteMessage messages messageId

/-- The status of the (first) message with the given id, if present. -/
def statusOf (messages : List Message) (messageId : String) : Option MessageStatus :=
  (messages.find? (fun m => m.id == messageId)).map (fun m => m.status)

/-- The chat store's view of the database: the messages table plus the
profile presence statuses. -/
structure ChatDB where
  messages : List Message
  profiles : List (String × UserStatus)
  deriving DecidableEq, Repr

/-- `sendMessage(conversationId, content)` from chatStore.ts: inserts the new
row with status `'sent'` (and bumps the conversation timestamp); it reads no
presence information and performs no delivered transition. -/
def sendMessage (db : ChatDB) (conversationId senderId content : String) (now : Nat)
    (newId : String) : ChatDB :=
  { db with
    messages := insertMessage db.messages conversationId senderId content now newId }

/-- `setUserOnline` from chatStore.ts (the connect hook): a single
`profiles.update { status: 'online' }` for the current user; the messages
table is not touched — no pending `sent` messages are promoted. -/
def setUserOnline (db : ChatDB) (userId : String) : ChatDB :=
  { db with
    profiles := db.profiles.map (fun p =>
      if p.1 == userId then (p.1, UserStatus.online) else p) }

/-- The presence status recorded for a user in the profiles table. -/
def profileStatus (db : ChatDB) (userId : String) : Option UserStatus :=
  (db.profiles.find? (fun p => p.1 == userId)).map (fun p => p.2)

/- Lemmas about markAsRead. -/

theorem mem_markAsRead_read (messages : List Message) (conversationId userId : String) :
    ∀ m' ∈ (markAsRead messages conversationId userId).1,
      m'.conversation_id = conversationId → m'.sender_id ≠ userId →
        m'.status = MessageStatus.read := by
  intro m' hm'
  simp only [markAsRead, List.mem_map] at hm'
  obtain ⟨m, _, rfl⟩ := hm'
  by_cases helig : eligibleForRead m conversationId userId = true
  · rw [if_pos helig]
    intro _ _
    rfl
  · rw [if_neg helig]
    intro hconv hsender
    have hfalse := eq_false_of_ne_true helig
    rw [eligibleForRead] at hfalse
    have h1 : (m.conversation_id == conversationId) = true := by simp [hconv]
    have h2 : (m.sender_id != userId) = true := by simp [hsender]
    rw [h1, h2] at hfalse
    simpa using hfalse

theorem markAsRead_result_not_eligible (messages : List Message)
    (conversationId userId : String) :
    ∀ m' ∈ (markAsRead messages conversationId userId).1,
      eligibleForRead m' conversationId userId = false := by
  intro m' hm'
  simp only [markAsRead, List.mem_map] at hm'
  obtain ⟨m, _, rfl⟩ := hm'
  by_cases helig : eligibleForRead m conversationId userId = true
  · rw [if_pos helig]
    simp [eligibleForRead]
  · rw [if_neg helig]
    exact eq_false_of_ne_true helig

theorem markAsRead_noop_of_not_eligible (messages : List Message)
    (conversationId userId : String)
    (h : ∀ m ∈ messages, eligibleForRead m conversationId userId = false) :
    markAsRead messages conversationId userId = (messages, []) := by
  unfold markAsRead
  simp only [Prod.mk.injEq]
  constructor
  · calc messages.map (fun m =>
          if eligibleForRead m conversationId userId then
            { m with status := MessageStatus.read }
          else m)
        = messages.map id := by
          refine List.map_congr_left ?_
          intro m hm
          rw [h m hm]
          simp
      _ = messages := List.map_id messages
  · have hfil : messages.filter (fun m => eligibleForRead m conversationId userId)
        = [] := by
      rw [List.filter_eq_nil_iff]
      intro m hm
      simp [h m hm]
    rw [hfil]
    rfl

/-- C4: `markAsRead` transitions every message of the conversation not
authored by the reader to `read` in one batch, and re-invoking it immediately
is a no-op: no message changes and the broadcast list is empty. -/
theorem markAsRead_batch_and_idempotent (messages : List Message)
    (conversationId userId : String) :
    (∀ m' ∈ (markAsRead messages conversationId userId).1,
        m'.conversation_id = conversationId → m'.sender_id ≠ userId →
          m'.status = MessageStatus.read) ∧
    markAsRead (markAsRead messages conversationId userId).1 conversationId userId
      = ((markAsRead messages conversationId userId).1, []) :=
  ⟨mem_markAsRead_read messages conversationId userId,
   markAsRead_noop_of_not_eligible _ conversationId userId
     (markAsRead_result_not_eligible messages conversationId userId)⟩

/-- Witness for C4: the idempotence clause evaluated at a concrete table. -/
theorem markAsRead_batch_and_idempotent_witness :
    markAsRead
      (markAsRead
        [{ id := "m1", conversation_id := "c1", sender_id := "A", content := "hi",
           status := MessageStatus.delivered, edited := false, created_at := 100 }]
        "c1" "B").1
      "c1" "B"
    = ((markAsRead
        [{ id := "m1", conversation_id := "c1", sender_id := "A", content := "hi",
           status := MessageStatus.delivered, edited := false, created_at := 100 }]
        "c1" "B").1, []) :=
  (markAsRead_batch_and_idempotent _ "c1" "B").2

/- find? lemmas used for the status monotonicity invariant. -/

theorem find?_map_of_id_eq {f : Message → Message} (hf : ∀ m, (f m).id = m.id)
    (l : List Message) (i : String) :
    (l.map f).find? (fun m => m.id == i) = (l.find? (fun m => m.id == i)).map f := by
  induction l with
  | nil => rfl
  | cons x xs ih =>
    simp only [List.map_cons, List.find?]
    rw [hf x]
    cases h : x.id == i
    · simp only [h]
      exact ih
    · simp only [h]
      rfl

theorem find?_filter_of_imp {p q : Message → Bool}
    (h : ∀ m, p m = true → q m = true) :
    ∀ l : List Message, (l.filter q).find? p = l.find? p := by
  intro l
  induction l with
  | nil => rfl
  | cons x xs ih =>
    simp only [List.filter_cons]
    cases hq : q x
    · have hp : p x = false := by
        cases hpx : p x
        · rfl
        · exact absurd (h x hpx) (by simp [hq])
      simp only [Bool.false_eq_true, if_false, List.find?, hp]
      exact ih
    · simp only [if_true, List.find?]
      cases hpx : p x
      · simp only [hpx]
        exact ih
      · simp only [hpx]

theorem find?_filter_none {p q : Message → Bool}
    (h : ∀ m, p m = true → q m = false) (l : List Message) :
    (l.filter q).find? p = none := by
  rw [List.find?_eq_none]
  intro m hm
  rw [List.mem_filter] at hm
  intro hp
  have := h m hp
  rw [this] at hm
  exact absurd hm.2 (by simp)

theorem find?_append_some {p : Message → Bool} {m : Message} :
    ∀ {l1 : List Message} (l2 : List Message), l1.find? p = some m →
      (l1 ++ l2).find? p = some m := by
  intro l1
  induction l1 with
  | nil =>
    intro l2 h
    simp [List.find?] at h
  | cons x xs ih =>
    intro l2 h
    simp only [List.cons_append, List.find?] at h ⊢
    cases hx : p x
    · simp only [hx] at h ⊢
      exact ih l2 h
    · simp only [hx] at h ⊢
      exact h

theorem statusRank_le_two (s : MessageStatus) : statusRank s ≤ 2 := by
  cases s <;> simp [statusRank]

/-- C9: no messages-table operation of the chat store moves a message's
delivery status backward: for any message present before and after an
operation, `statusRank` is non-decreasing (status only advances along
sent, delivered, read). -/
theorem message_status_never_moves_backward (messages : List Message) (op : MsgOp)
    (messageId : String) (s s' : MessageStatus)
    (hbefore : statusOf messages messageId = some s)
    (hafter : statusOf (applyMsgOp messages op) messageId = some s') :
    statusRank s ≤ statusRank s' := by
  cases op with
  | send conversationId senderId content now newId =>
    simp only [statusOf] at hbefore
    cases hfind : messages.find? (fun m => m.id == messageId) with
    | none => rw [hfind] at hbefore; simp at hbefore
    | some m0 =>
      rw [hfind] at hbefore
      simp only [Option.map_some', Option.some.injEq] at hbefore
      simp only [applyMsgOp, insertMessage, statusOf] at hafter
      rw [find?_append_some _ hfind] at hafter
      simp only [Option.map_some', Option.some.injEq] at hafter
      rw [← hbefore, ← hafter]
  | markRead conversationId readerId =>
    have hf : ∀ m : Message,
        ((fun m => if eligibleForRead m conversationId readerId then
            { m with status := MessageStatus.read } else m) m).id = m.id := by
      intro m
      by_cases h : eligibleForRead m conversationId readerId = true <;> simp [h]
    simp only [applyMsgOp, markAsRead, statusOf] at hafter
    rw [find?_map_of_id_eq hf] at hafter
    simp only [statusOf] at hbefore
    cases hfind : messages.find? (fun m => m.id == messageId) with
    | none => rw [hfind] at hbefore; simp at hbefore
    | some m0 =>
      rw [hfind] at hbefore hafter
      simp only [Option.map_some', Option.some.injEq] at hbefore hafter
      by_cases helig : eligibleForRead m0 conversationId readerId = true
      · rw [helig] at hafter
        simp only [if_true] at hafter
        rw [← hafter]
        exact le_trans (statusRank_le_two s) (by simp [statusRank])
      · rw [eq_false_of_ne_true helig] at hafter
        simp only [Bool.false_eq_true, if_false] at hafter
        rw [← hbefore, ← hafter]
  | edit editId newContent =>
    have hf : ∀ m : Message,
        ((fun m => if m.id == editId then
            { m with content := newContent, edited := true } else m) m).id = m.id := by
      intro m
      by_cases h : (m.id == editId) = true <;> simp [h]
    simp only [applyMsgOp, editMessage, statusOf] at hafter
    rw [find?_map_of_id_eq hf] at hafter
    simp only [statusOf] at hbefore
    cases hfind : messages.find? (fun m => m.id == messageId) with
    | none => rw [hfind] at hbefore; simp at hbefore
    | some m0 =>
      rw [hfind] at hbefore hafter
      simp only [Option.map_some', Option.some.injEq] at hbefore hafter
      by_cases hid : (m0.id == editId) = true
      · rw [hid] at hafter
        simp only [if_true] at hafter
        rw [← hbefore, ← hafter]
      · rw [eq_false_of_ne_true hid] at hafter
        simp only [Bool.false_eq_true, if_false] at hafter
        rw [← hbefore, ← hafter]
  | delete deleteId =>
    simp only [applyMsgOp, deleteMessage, statusOf] at hafter
    by_cases hcase : messageId = deleteId
    · rw [find?_filter_none (fun m hm => ?_)] at hafter
      · simp at hafter
      · simp only [beq_iff_eq] at hm
        simp [hm, hcase]
    · rw [find?_filter_of_imp (fun m hm => ?_)] at hafter
      · simp only [statusOf] at hbefore
        rw [hbefore] at hafter
        cases hafter
        exact le_refl _
      · simp only [beq_iff_eq] at hm
        simp [hm, hcase]

/-- A concrete one-message table used by the status-invariant witness. -/
def demoMsgs : List Message :=
  [{ id := "m1", conversation_id := "c1", sender_id := "A", content := "hi",
     status := MessageStatus.sent, edited := false, created_at := 100 }]

/-- Witness for C9: a concrete `markAsRead` moves a `sent` message of another
sender to `read`, a forward move. -/
theorem message_status_never_moves_backward_witness :
    statusOf demoMsgs "m1" = some MessageStatus.sent ∧
    statusOf (applyMsgOp demoMsgs (MsgOp.markRead "c1" "B")) "m1"
      = some MessageStatus.read ∧
    statusRank MessageStatus.sent ≤ statusRank MessageStatus.read :=
  ⟨rfl, rfl, message_status_never_moves_backward demoMsgs (MsgOp.markRead "c1" "B")
    "m1" MessageStatus.sent MessageStatus.read rfl rfl⟩

/- ===================================================================
   Typing indicator coordinator (chatStore.ts startTyping / stopTyping,
   and the server-side auto-expiry documented in the repository)
   =================================================================== -/

/-- A row of the `typing_indicators` table: UNIQUE(conversation_id, user_id),
with the refresh timestamp `updated_at`. -/
structure TypingRow where
  conversation_id : String
  user_id : String
  username : String
  updated_at : Nat
  deriving DecidableEq, Repr

/-- A realtime event on the `typing_indicators` table, as delivered to the
other participant's `typingChannel`: INSERT starts the indicator
(typing-start), DELETE stops it (typing-stop), UPDATE refreshes it. -/
inductive TypingEvent where
  | insert (conversationId userId : String)
  | update (conversationId userId : String)
  | delete (conversationId userId : String)
  deriving DecidableEq, Repr

/-- The row belongs to the (conversation, user) pair. -/
def isPairRow (conversationId userId : String) (r : TypingRow) : Bool :=
  r.conversation_id == conversationId && r.user_id == userId

/-- The upsert of `startTyping` (chatStore.ts): with the table's
UNIQUE(conversation_id, user_id) constraint, the upsert updates the existing
row's `username`/`updated_at` when a live indicator exists (the realtime
layer then emits an UPDATE event) and inserts a fresh row otherwise (the
realtime layer emits an INSERT event, the typing-start broadcast). -/
def upsertTypingIndicator (table : List TypingRow)
    (conversationId userId username : String) (now : Nat) :
    List TypingRow × TypingEvent :=
  if table.any (isPairRow conversationId userId) then
    (table.map (fun r =>
        if isPairRow conversationId userId r then
          { r with username := username, updated_at := now }
        else r),
     TypingEvent.update conversationId userId)
  else
    (table ++ [{ conversation_id := conversationId, user_id := userId,
                 username := username, updated_at := now }],
     TypingEvent.insert conversationId userId)

/-- Modelled from the spec: the typing coordinator's hard expiry delay of
10 seconds (the repository documents the mechanism as a database trigger
auto-deleting indicators 10 seconds after the last refresh; that trigger's
source is not in the repository). -/
def TYPING_EXPIRY_MS : Nat := 10000

/-- Modelled from the spec: the coordinator's auto-expiry sweep (the
server-side cleanup whose source is not in the repository). Run at time
`now`, it deletes every indicator not refreshed for 10 seconds and emits
one typing-stop (DELETE) event per deleted row, independent of any client. -/
def expireTypingIndicators (table : List TypingRow) (now : Nat) :
    List TypingRow × List TypingEvent :=
  (table.filter (fun r => now - r.updated_at < TYPING_EXPIRY_MS),
   (table.filter (fun r => TYPING_EXPIRY_MS ≤ now - r.updated_at)).map
     (fun r => TypingEvent.delete r.conversation_id r.user_id))

/-- The rows stored for a (conversation, user) pair. -/
def pairRows (table : List TypingRow) (conversationId userId : String) :
    List TypingRow :=
  table.filter (isPairRow conversationId userId)

/-- The number of rows stored for a (conversation, user) pair (the table's
UNIQUE constraint keeps this at most 1). -/
def pairCount (table : List TypingRow) (conversationId userId : String) : Nat :=
  (pairRows table conversationId userId).length

/-- A live indicator exists for the pair. -/
def pairLive (table : List TypingRow) (conversationId userId : String) : Bool :=
  table.any (isPairRow conversationId userId)

/-- How many typing-stop (DELETE) events for the pair a broadcast list holds. -/
def countStops (events : List TypingEvent) (conversationId userId : String) : Nat :=
  (events.filter (fun e => e == TypingEvent.delete conversationId userId)).length

theorem pairLive_false_iff (table : List TypingRow) (conversationId userId : String) :
    pairLive table conversationId userId = false ↔
      pairRows table conversationId userId = [] := by
  rw [pairLive, pairRows]
  constructor
  · intro h
    rw [List.filter_eq_nil_iff]
    intro r hr
    have := List.any_eq_false.mp h r hr
    simpa using this
  · intro h
    rw [List.any_eq_false]
    intro r hr
    have := List.filter_eq_nil_iff.mp h r hr
    simpa using this

theorem pairLive_true_of_rows {table : List TypingRow} {conversationId userId : String}
    {r : TypingRow} (h : r ∈ pairRows table conversationId userId) :
    pairLive table conversationId userId = true := by
  rw [pairRows, List.mem_filter] at h
  exact List.any_eq_true.mpr ⟨r, h.1, h.2⟩

theorem pairRows_filter_comm (table : List TypingRow)
    (conversationId userId : String) (keep : TypingRow → Bool) :
    pairRows (table.filter keep) conversationId userId
      = (pairRows table conversationId userId).filter keep := by
  rw [pairRows, pairRows, List.filter_filter, List.filter_filter]
  exact List.filter_congr (fun r _ => Bool.and_comm _ _)

theorem pairRows_upsert (table : List TypingRow)
    (conversationId userId username : String) (t : Nat)
    (hwf : pairCount table conversationId userId ≤ 1) :
    pairRows (upsertTypingIndicator table conversationId userId username t).1
        conversationId userId
      = [{ conversation_id := conversationId, user_id := userId,
           username := username, updated_at := t }] := by
  unfold upsertTypingIndicator
  by_cases hany : table.any (isPairRow conversationId userId) = true
  · rw [if_pos hany]
    have hmapfil : ∀ tbl : List TypingRow,
        pairRows (tbl.map (fun r =>
            if isPairRow conversationId userId r then
              { r with username := username, updated_at := t }
            else r)) conversationId userId
          = (pairRows tbl conversationId userId).map
              (fun r => { r with username := username, updated_at := t }) := by
      intro tbl
      induction tbl with
      | nil => rfl
      | cons x xs ih =>
        simp only [pairRows] at ih ⊢
        by_cases hx : isPairRow conversationId userId x = true
        · have hx' : isPairRow conversationId userId
              { x with username := username, updated_at := t } = true := by
            simpa [isPairRow] using hx
          simp [hx, hx', ih]
        · have hx0 : isPairRow conversationId userId x = false :=
            eq_false_of_ne_true hx
          simp [hx0, ih]
    rw [hmapfil table]
    have hwf' : (pairRows table conversationId userId).length ≤ 1 := hwf
    have hlen1 : (pairRows table conversationId userId).length = 1 := by
      have hge : 0 < (pairRows table conversationId userId).length := by
        obtain ⟨r, hr, hpr⟩ := List.any_eq_true.mp hany
        exact List.length_pos.mpr
          (List.ne_nil_of_mem (List.mem_filter.mpr ⟨hr, hpr⟩))
      omega
    obtain ⟨r0, hr0⟩ := List.length_eq_one.mp hlen1
    have hr0mem : r0 ∈ pairRows table conversationId userId := by
      rw [hr0]
      simp
    have hr0pair : isPairRow conversationId userId r0 = true := by
      rw [pairRows, List.mem_filter] at hr0mem
      exact hr0mem.2
    rw [isPairRow, Bool.and_eq_true, beq_iff_eq, beq_iff_eq] at hr0pair
    rw [hr0]
    simp only [List.map_cons, List.map_nil, List.cons.injEq, and_true]
    rw [TypingRow.mk.injEq]
    exact ⟨hr0pair.1, hr0pair.2, rfl, rfl⟩
  · rw [if_neg hany]
    rw [pairRows, List.filter_append]
    have hnil : table.filter (isPairRow conversationId userId) = [] := by
      rw [List.filter_eq_nil_iff]
      intro r hr
      have := List.any_eq_false.mp (eq_false_of_ne_true hany) r hr
      simpa using this
    rw [hnil]
    simp [isPairRow]

theorem countStops_map_delete (rows : List TypingRow)
    (conversationId userId : String) :
    countStops (rows.map (fun r => TypingEvent.delete r.conversation_id r.user_id))
        conversationId userId
      = (rows.filter (isPairRow conversationId userId)).length := by
  induction rows with
  | nil => rfl
  | cons x xs ih =>
    rw [countStops] at ih ⊢
    simp only [List.map_cons, List.filter_cons]
    by_cases hc : x.conversation_id = conversationId
    · by_cases hu : x.user_id = userId
      · have h1 : (TypingEvent.delete x.conversation_id x.user_id
            == TypingEvent.delete conversationId userId) = true := by
          simp [hc, hu]
        have h2 : isPairRow conversationId userId x = true := by
          simp [isPairRow, hc, hu]
        rw [h1, h2]
        simpa using ih
      · have h1 : (TypingEvent.delete x.conversation_id x.user_id
            == TypingEvent.delete conversationId userId) = false := by
          simp [hu]
        have h2 : isPairRow conversationId userId x = false := by
          simp [isPairRow, hu]
        rw [h1, h2]
        simpa using ih
    · have h1 : (TypingEvent.delete x.conversation_id x.user_id
          == TypingEvent.delete conversationId userId) = false := by
        simp [hc]
      have h2 : isPairRow conversationId userId x = false := by
        simp [isPairRow, hc]
      rw [h1, h2]
      simpa using ih

/-- C3: an indicator created or refreshed at time `t` and never refreshed
again is deleted by the coordinator's sweep once 10 seconds have elapsed,
with exactly one typing-stop event for the pair; any sweep strictly before
`t + 10000` leaves the indicator live — the auto-expiry delay is 10 s. -/
theorem typing_indicator_expires_after_ten_seconds (table : List TypingRow)
    (conversationId userId username : String) (t tExp : Nat)
    (hwf : pairCount table conversationId userId ≤ 1)
    (hten : t + 10000 ≤ tExp) :
    pairLive (expireTypingIndicators
        (upsertTypingIndicator table conversationId userId username t).1 tExp).1
        conversationId userId = false ∧
    countStops (expireTypingIndicators
        (upsertTypingIndicator table conversationId userId username t).1 tExp).2
        conversationId userId = 1 ∧
    ∀ tEarly, tEarly < t + 10000 →
      pairLive (expireTypingIndicators
          (upsertTypingIndicator table conversationId userId username t).1 tEarly).1
          conversationId userId = true := by
  have hrows := pairRows_upsert table conversationId userId username t hwf
  refine ⟨?_, ?_, ?_⟩
  · rw [pairLive_false_iff, expireTypingIndicators, pairRows_filter_comm, hrows]
    have : (tExp - t < TYPING_EXPIRY_MS) = False := by
      simp only [TYPING_EXPIRY_MS, eq_iff_iff, iff_false]
      omega
    simp [List.filter, this]
  · rw [expireTypingIndicators, countStops_map_delete, List.filter_filter]
    have hcomm : (upsertTypingIndicator table conversationId userId username t).1.filter
          (fun r => isPairRow conversationId userId r
            && decide (TYPING_EXPIRY_MS ≤ tExp - r.updated_at))
        = (pairRows (upsertTypingIndicator table conversationId userId username t).1
            conversationId userId).filter
              (fun r => decide (TYPING_EXPIRY_MS ≤ tExp - r.updated_at)) := by
      rw [pairRows, List.filter_filter]
      exact List.filter_congr (fun r _ => Bool.and_comm _ _)
    rw [hcomm, hrows]
    have : (TYPING_EXPIRY_MS ≤ tExp - t) = True := by
      simp only [TYPING_EXPIRY_MS, eq_iff_iff, iff_true]
      omega
    simp [List.filter, this]
  · intro tEarly hEarly
    have hkeep : (tEarly - t < TYPING_EXPIRY_MS) = True := by
      simp only [TYPING_EXPIRY_MS, eq_iff_iff, iff_true]
      omega
    have hmem : TypingRow.mk conversationId userId username t
        ∈ pairRows (expireTypingIndicators
            (upsertTypingIndicator table conversationId userId username t).1
            tEarly).1 conversationId userId := by
      rw [expireTypingIndicators, pairRows_filter_comm, hrows]
      simp [List.filter, hkeep]
    exact pairLive_true_of_rows hmem

/-- Witness for C3: from the empty table, a start at t = 1000 expires at the
sweep of t = 11000 with exactly one typing-stop for the pair. -/
theorem typing_indicator_expiry_witness :
    pairCount ([] : List TypingRow) "c1" "A" ≤ 1 ∧
    1000 + 10000 ≤ 11000 ∧
    pairLive (expireTypingIndicators
        (upsertTypingIndicator ([] : List TypingRow) "c1" "A" "alice" 1000).1
        11000).1 "c1" "A" = false ∧
    countStops (expireTypingIndicators
        (upsertTypingIndicator ([] : List TypingRow) "c1" "A" "alice" 1000).1
        11000).2 "c1" "A" = 1 :=
  ⟨by decide, by decide,
   (typing_indicator_expires_after_ten_seconds [] "c1" "A" "alice" 1000 11000
     (by decide) (by decide)).1,
   (typing_indicator_expires_after_ten_seconds [] "c1" "A" "alice" 1000 11000
     (by decide) (by decide)).2.1⟩

theorem upsert_keeps_pair_live (table : List TypingRow)
    (conversationId userId username : String) (now : Nat) :
    pairLive (upsertTypingIndicator table conversationId userId username now).1
      conversationId userId = true := by
  unfold upsertTypingIndicator
  by_cases hany : table.any (isPairRow conversationId userId) = true
  · rw [if_pos hany]
    obtain ⟨r, hr, hpr⟩ := List.any_eq_true.mp hany
    rw [pairLive, List.any_eq_true]
    have hmem := List.mem_map_of_mem (fun r =>
        if isPairRow conversationId userId r then
          { r with username := username, updated_at := now }
        else r) hr
    refine ⟨_, hmem, ?_⟩
    have hc := hpr
    rw [isPairRow, Bool.and_eq_true, beq_iff_eq, beq_iff_eq] at hc
    simp [hpr, isPairRow, hc.1, hc.2]
  · rw [if_neg hany]
    rw [pairLive, List.any_eq_true]
    exact ⟨{ conversation_id := conversationId, user_id := userId,
             username := username, updated_at := now },
           by simp, by simp [isPairRow]⟩

/-- C6: the upsert of `startTyping` yields the INSERT (typing-start) event
exactly when no live indicator existed for the (conversation, user) pair;
refreshing a live indicator yields an UPDATE event, never a second
typing-start. -/
theorem startTyping_broadcasts_start_only_when_new (table : List TypingRow)
    (conversationId userId u1 u2 : String) (n1 n2 : Nat) :
    ((upsertTypingIndicator table conversationId userId u1 n1).2
        = TypingEvent.insert conversationId userId
      ↔ pairLive table conversationId userId = false) ∧
    (upsertTypingIndicator
        (upsertTypingIndicator table conversationId userId u1 n1).1
        conversationId userId u2 n2).2
      = TypingEvent.update conversationId userId := by
  constructor
  · unfold upsertTypingIndicator pairLive
    by_cases hany : table.any (isPairRow conversationId userId) = true
    · rw [if_pos hany, hany]
      simp
    · rw [if_neg hany, eq_false_of_ne_true hany]
      simp
  · have hlive := upsert_keeps_pair_live table conversationId userId u1 n1
    rw [pairLive] at hlive
    have hgoal : ∀ tbl : List TypingRow,
        tbl.any (isPairRow conversationId userId) = true →
        (upsertTypingIndicator tbl conversationId userId u2 n2).2
          = TypingEvent.update conversationId userId := by
      intro tbl h
      unfold upsertTypingIndicator
      rw [if_pos h]
    exact hgoal _ hlive

/-- A database where both participants are online and no message exists yet. -/
def demoDB : ChatDB :=
  { messages := [],
    profiles := [("userA", UserStatus.online), ("userB", UserStatus.online)] }

/-- C1 (divergence): user A sends a message while the other participant
userB is online in the profiles table; the persisted message has status
`sent` — `sendMessage` performs no delivered transition — and the connect
hook `setUserOnline` for userB also leaves the message at `sent`: nothing
in the store ever promotes a pending `sent` message to `delivered`. -/
theorem sendMessage_delivery_divergence :
    profileStatus demoDB "userB" = some UserStatus.online ∧
    statusOf (sendMessage demoDB "conv1" "userA" "hi" 1000 "m1").messages "m1"
      = some MessageStatus.sent ∧
    statusOf (setUserOnline (sendMessage demoDB "conv1" "userA" "hi" 1000 "m1")
        "userB").messages "m1"
      = some MessageStatus.sent := by
  refine ⟨rfl, rfl, rfl⟩

/- ===================================================================
   Call sessions (callStore.ts; the initiate-call / answer-call / end-call
   edge functions are server-side and not in the repository, so they are
   modelled from the design spec)
   =================================================================== -/

/-- Status of a call session (callStore.ts `CallSession.status`). -/
inductive CallStatus where
  | initiating
  | ringing
  | connected
  | ended
  | missed
  | declined
  deriving DecidableEq, Repr

/-- Terminal statuses: `ended`, `missed`, `declined`. -/
def isTerminal : CallStatus → Bool
  | .ended => true
  | .missed => true
  | .declined => true
  | _ => false

/-- A row of the `call_sessions` table (callStore.ts `CallSession`). -/
structure CallSession where
  id : String
  caller_id : String
  recipient_id : String
  conversation_id : String
  status : CallStatus
  created_at : Nat
  answered_at : Option Nat
  ended_at : Option Nat
  duration : Option Nat
  deriving DecidableEq, Repr

/-- Errors of the call state machine (spec taxonomy); `ConflictError`
exposes the existing session's id. -/
inductive CallError where
  | ConflictError (existingId : String)
  | InvalidTransitionError
  | ValidationError
  deriving DecidableEq, Repr

/-- The session is between the same unordered pair of users. -/
def samePair (s : CallSession) (a b : String) : Bool :=
  (s.caller_id == a && s.recipient_id == b) ||
    (s.caller_id == b && s.recipient_id == a)

/-- The session is an active (non-terminal) session for the unordered pair. -/
def activeForPair (a b : String) (s : CallSession) : Bool :=
  samePair s a b && !(isTerminal s.status)

/-- Modelled from the spec: the initiate-call edge function (invoked by
callStore.ts `initiateCall`; its source is not in the repository). It
rejects with `ConflictError` — exposing the existing session id — when an
active (non-terminal) session exists for the unordered pair, leaving the
table as it was; otherwise it creates the session (`initiating`,
auto-advanced to `ringing`). -/
def initiateCall (sessions : List CallSession)
    (callerId recipientId conversationId : String) (now : Nat) (newId : String) :
    List CallSession × Except CallError CallSession :=
  match sessions.find? (activeForPair callerId recipientId) with
  | some s => (sessions, Except.error (CallError.ConflictError s.id))
  | none =>
    let s : CallSession :=
      { id := newId, caller_id := callerId, recipient_id := recipientId,
        conversation_id := conversationId, status := CallStatus.ringing,
        created_at := now, answered_at := none, ended_at := none, duration := none }
    (sessions ++ [s], Except.ok s)

/-- Modelled from the spec: the end-call edge function (invoked by
callStore.ts `endCall`; its source is not in the repository). Ending is
valid from `connected` for either party, or from `ringing`/`initiating` for
the caller only (cancel); it sets status `ended`, `ended_at`, and a
`duration` when `answered_at` was set. Ending an already-terminal session is
an idempotent no-op; any other use is an `InvalidTransitionError` that
leaves the session unchanged. -/
def endCall (sessions : List CallSession) (callId enderId : String) (now : Nat) :
    List CallSession × Except CallError Unit :=
  match sessions.find? (fun s => s.id == callId) with
  | none => (sessions, Except.error CallError.ValidationError)
  | some s =>
    if isTerminal s.status then (sessions, Except.ok ())
    else if s.status == CallStatus.connected
        || ((s.status == CallStatus.ringing || s.status == CallStatus.initiating)
            && enderId == s.caller_id) then
      (sessions.map (fun s' =>
          if s'.id == callId then
            { s' with status := CallStatus.ended,
                      ended_at := some now,
                      duration := s'.answered_at.map (fun a => now - a) }
          else s'),
       Except.ok ())
    else (sessions, Except.error CallError.InvalidTransitionError)

/-- `declineCall` from callStore.ts: it simply delegates to `endCall` (the
end-call edge function); no decline-specific server operation is invoked
anywhere in the client. -/
def declineCall (sessions : List CallSession) (callId declinerId : String)
    (now : Nat) : List CallSession × Except CallError Unit :=
  endCall sessions callId declinerId now

/-- The status of the session with the given id, if present. -/
def callStatusOf (sessions : List CallSession) (callId : String) :
    Option CallStatus :=
  (sessions.find? (fun s => s.id == callId)).map (fun s => s.status)

/-- A ringing session from userA to userB, as produced by initiate. -/
def demoRinging : CallSession :=
  { id := "call1", caller_id := "userA", recipient_id := "userB",
    conversation_id := "conv1", status := CallStatus.ringing, created_at := 1000,
    answered_at := none, ended_at := none, duration := none }

/-- The call-session table holding only the ringing demo session. -/
def demoSessions : List CallSession := [demoRinging]

/-- C2 (divergence): declining a ringing call never produces status
`declined`. `declineCall` delegates to `endCall`: for the recipient userB
the end operation is invalid from `ringing` (only the caller may cancel), so
the session is left ringing with an `InvalidTransitionError`; and even for
the caller userA the session moves to `ended`, not `declined`. No code path
ever reaches the `declined` status. -/
theorem declineCall_never_yields_declined :
    declineCall demoSessions "call1" "userB" 5000
      = (demoSessions, Except.error CallError.InvalidTransitionError) ∧
    callStatusOf (declineCall demoSessions "call1" "userA" 5000).1 "call1"
      = some CallStatus.ended := by
  exact ⟨rfl, rfl⟩

/-- C5: initiate on a pair with an existing active (non-terminal) session
for the same unordered pair fails with `ConflictError` and leaves the
session table untouched. -/
theorem initiateCall_conflict_on_active_pair (sessions : List CallSession)
    (callerId recipientId conversationId : String) (now : Nat) (newId : String)
    (s : CallSession) (hs : s ∈ sessions)
    (hpair : samePair s callerId recipientId = true)
    (hactive : isTerminal s.status = false) :
    (initiateCall sessions callerId recipientId conversationId now newId).1
      = sessions ∧
    ∃ existing,
      (initiateCall sessions callerId recipientId conversationId now newId).2
        = Except.error (CallError.ConflictError existing) := by
  have hfind : (sessions.find? (activeForPair callerId recipientId)).isSome := by
    rw [List.find?_isSome]
    exact ⟨s, hs, by simp [activeForPair, hpair, hactive]⟩
  cases hf : sessions.find? (activeForPair callerId recipientId) with
  | none =>
    rw [hf] at hfind
    simp at hfind
  | some s0 =>
    constructor
    · unfold initiateCall
      rw [hf]
    · refine ⟨s0.id, ?_⟩
      unfold initiateCall
      rw [hf]

/-- Witness for C5: initiating for the same unordered pair (in reversed
order) while the demo session is still ringing conflicts and leaves the
table unchanged. -/
theorem initiateCall_conflict_witness :
    demoRinging ∈ demoSessions ∧
    samePair demoRinging "userB" "userA" = true ∧
    isTerminal demoRinging.status = false ∧
    (initiateCall demoSessions "userB" "userA" "conv1" 2000 "call2").1
      = demoSessions ∧
    ∃ existing, (initiateCall demoSessions "userB" "userA" "conv1" 2000 "call2").2
      = Except.error (CallError.ConflictError existing) :=
  ⟨by simp [demoSessions], by decide, by decide,
   (initiateCall_conflict_on_active_pair demoSessions "userB" "userA" "conv1"
      2000 "call2" demoRinging (by simp [demoSessions]) (by decide) (by decide)).1,
   (initiateCall_conflict_on_active_pair demoSessions "userB" "userA" "conv1"
      2000 "call2" demoRinging (by simp [demoSessions]) (by decide) (by decide)).2⟩

end PerkChat
